import Mathlib

/-!
Verification of the vconfig hot-reloadable configuration engine
(`vconfig/vconfig.go`, `vconfig/helper.go`).

The development shallowly embeds the Go code:

* `GoVal` models the runtime values the engine manipulates (the reflect
  universe restricted to what the configuration types use: scalars,
  float64 including NaN, structs with tags and exportedness, string-keyed
  maps, and slices/arrays).
* `deepEqual` models `reflect.DeepEqual` on that universe (in particular
  `DeepEqual(NaN, NaN) = false`).
* `findConfigChangesO` models `findConfigChanges` from `helper.go`.  Go
  iterates the key-union map of the map branch in an unspecified order;
  the embedding makes that order explicit as a parameter `ord` applied to
  the canonical key-union list.  `findConfigChanges` instantiates `ord`
  with the identity.
* `EngineState` and the functions on it model the engine methods of
  `vconfig.go` (`triggerCallbacks`, `reload`, the `watchConfig` handler,
  `Update`, `SaveConfig`, `Close`), with external I/O (file contents,
  write success) passed as explicit inputs and wall-clock time as an
  integer parameter.
* `cloneConfig` models the JSON round trip of `cloneConfig` via a JSON
  value model (`Json`), a marshaller and a shape-directed unmarshaller.
-/

namespace Vconfig

/-- One struct field of the user configuration record: Go field name,
`yaml` tag, `json` tag, exportedness, and the field value. -/
structure GoFieldG (V : Type) where
  fname : String
  yamlTag : String
  jsonTag : String
  exported : Bool
  fval : V
deriving Repr

/-- The universe of Go runtime values handled by `findConfigChanges`:
scalars (int, bool, string, float64 — a float is either NaN or an exact
numeric payload), structs, string-keyed maps and slices/arrays. -/
inductive GoVal where
  | vInt (n : Int)
  | vBool (b : Bool)
  | vStr (s : String)
  | vFloat (nan : Bool) (n : Int)
  | vStruct (tyName : String) (fields : List (GoFieldG GoVal))
  | vMap (entries : List (String × GoVal))
  | vSlice (elems : List GoVal)
deriving Repr

abbrev GoField := GoFieldG GoVal

open GoVal

/-!
`deepEqual` models `reflect.DeepEqual` on `GoVal`: structural equality,
except that a NaN float is not equal to anything, itself included.
-/
mutual
def deepEqual : GoVal → GoVal → Bool
  | vInt a, b => match b with | vInt c => a == c | _ => false
  | vBool a, b => match b with | vBool c => a == c | _ => false
  | vStr a, b => match b with | vStr c => a == c | _ => false
  | vFloat na a, b => match b with | vFloat nb c => !na && !nb && a == c | _ => false
  | vStruct n fs, b => match b with | vStruct m gs => n == m && deepEqualFields fs gs | _ => false
  | vMap es, b => match b with | vMap fs => deepEqualEntries es fs | _ => false
  | vSlice xs, b => match b with | vSlice ys => deepEqualList xs ys | _ => false
termination_by structural a => a

def deepEqualFields : List GoField → List GoField → Bool
  | [], gs => match gs with | [] => true | _ => false
  | ⟨n, y, j, e, v⟩ :: fs, gs =>
      match gs with
      | ⟨m, z, k, d, w⟩ :: gs' =>
          n == m && y == z && j == k && e == d && deepEqual v w && deepEqualFields fs gs'
      | _ => false
termination_by structural a => a

def deepEqualEntries : List (String × GoVal) → List (String × GoVal) → Bool
  | [], gs => match gs with | [] => true | _ => false
  | (k, v) :: es, gs =>
      match gs with
      | (l, w) :: fs => k == l && deepEqual v w && deepEqualEntries es fs
      | _ => false
termination_by structural a => a

def deepEqualList : List GoVal → List GoVal → Bool
  | [], ys => match ys with | [] => true | _ => false
  | x :: xs, ys =>
      match ys with
      | y :: ys' => deepEqual x y && deepEqualList xs ys'
      | _ => false
termination_by structural a => a
end

/-- The Go type of a value, to the precision the diff needs: kind, plus
(for structs) the type name and the field signature, so that two values
of the same type always have matching struct shapes. -/
inductive GoTy where
  | tInt
  | tBool
  | tStr
  | tFloat
  | tStruct (tyName : String) (sig : List (String × String × String × Bool))
  | tMap
  | tSlice
deriving Repr, DecidableEq

def fieldSig (fs : List GoField) : List (String × String × String × Bool) :=
  fs.map (fun f => (f.fname, f.yamlTag, f.jsonTag, f.exported))

def tyOf : GoVal → GoTy
  | vInt _ => .tInt
  | vBool _ => .tBool
  | vStr _ => .tStr
  | vFloat _ _ => .tFloat
  | vStruct n fs => .tStruct n (fieldSig fs)
  | vMap _ => .tMap
  | vSlice _ => .tSlice

/-- Kinds `reflect.Struct`, `reflect.Map`, `reflect.Slice`, `reflect.Array`:
the kinds the diff recurses into instead of comparing directly. -/
def isComposite : GoVal → Bool
  | vStruct _ _ => true
  | vMap _ => true
  | vSlice _ => true
  | _ => false

/-- `ConfigChangedItem` from `vconfig.go`: dotted path, old value, new
value.  `none` models a Go `nil` old/new value. -/
structure ConfigChangedItem where
  Path : String
  OldValue : Option GoVal
  NewValue : Option GoVal
deriving Repr

/-- First comma-separated part of a struct tag (`strings.Split(tag, ",")[0]`). -/
def firstCommaPart (s : String) : String :=
  String.mk (s.toList.takeWhile (fun c => c ≠ ','))

/-- Path segment chosen for a struct field (`helper.go` lines 72-90):
the yaml tag's first part when the yaml tag is nonempty and not `"-"`,
else the json tag's first part under the same proviso, else the Go field
name. -/
def fieldPathSeg (fname yamlTag jsonTag : String) : String :=
  if yamlTag ≠ "" && yamlTag ≠ "-" then firstCommaPart yamlTag
  else if jsonTag ≠ "" && jsonTag ≠ "-" then firstCommaPart jsonTag
  else fname

/-- `fullPath := path; if fullPath != "" { fullPath += "." }; fullPath += seg`. -/
def joinPath (path seg : String) : String :=
  if path ≠ "" then path ++ "." ++ seg else path ++ seg

/-- `fmt.Sprintf("%s[%d]", path, i)`. -/
def indexPath (path : String) (i : Nat) : String :=
  path ++ "[" ++ toString i ++ "]"

/-- First-match lookup of a key in a map's entry list (`MapIndex`;
Go map keys are unique). -/
def lookupEntry (fs : List (String × GoVal)) (k : String) : Option GoVal :=
  (fs.find? (fun e => e.1 == k)).map (fun e => e.2)

/-- Key list with duplicates removed, keeping first occurrences: the set
of keys of the `allKeys` Go map built in the map branch. -/
def dedupKeysAux (seen : List String) : List String → List String
  | [] => []
  | k :: ks =>
      if seen.contains k then dedupKeysAux seen ks
      else k :: dedupKeysAux (k :: seen) ks

def dedupKeys (ks : List String) : List String :=
  dedupKeysAux [] ks

/-- Per-key change chunks for keys that exist only in the new map: one
addition item `{OldValue: nil, NewValue: v}` each (`helper.go` 138-144). -/
def additionChunks (oldKeys : List String) (fs : List (String × GoVal)) (path : String) :
    List (String × List ConfigChangedItem) :=
  (fs.filter (fun e => !oldKeys.contains e.1)).map
    (fun e => (e.1, [⟨joinPath path e.1, none, some e.2⟩]))

/-!
`fccO` is the embedding of `findConfigChanges` (`helper.go` 10-235), with
the iteration order of the map branch's key union made explicit: the Go
code ranges over the `allKeys` map in an unspecified order; here the
per-key chunks are computed for the canonical union list (old keys first,
then new-only keys, first occurrences kept) and then concatenated in the
order `ord union`.  Field-by-field, index-by-index traversal is
structural on the old value, matching the Go code's iteration over the
(shared) type's fields and indices.
-/
mutual
def fccO (ord : List String → List String) : GoVal → GoVal → String → List ConfigChangedItem
  | a, b, path =>
    -- 如果类型不同，直接认为整个值都变了 (helper.go 46-52)
    if tyOf a ≠ tyOf b then [⟨path, some a, some b⟩]
    else match a, b with
    | vStruct n fs, vStruct m gs =>
        if deepEqual (vStruct n fs) (vStruct m gs) then []
        else fccFields ord fs gs path
    | vMap es, vMap fs =>
        if deepEqual (vMap es) (vMap fs) then []
        else
          let oldKeys := es.map Prod.fst
          let union := dedupKeys (oldKeys ++ fs.map Prod.fst)
          let chunks := fccEntryChunks ord es fs path ++ additionChunks oldKeys fs path
          (ord union).flatMap
            (fun k => (((chunks.find? (fun c => c.1 == k)).map (fun c => c.2)).getD []))
    | vSlice xs, vSlice ys =>
        if deepEqual (vSlice xs) (vSlice ys) then []
        else if xs.length ≠ ys.length then [⟨path, some (vSlice xs), some (vSlice ys)⟩]
        else
          let cs := fccElems ord xs ys path 0
          if cs.isEmpty && !(deepEqual (vSlice xs) (vSlice ys)) then
            [⟨path, some (vSlice xs), some (vSlice ys)⟩]
          else cs
    | a', b' =>
        if !(deepEqual a' b') then [⟨path, some a', some b'⟩] else []
termination_by structural a => a

def fccFields (ord : List String → List String) :
    List GoField → List GoField → String → List ConfigChangedItem
  | [], _, _ => []
  | ⟨n, y, j, e, v⟩ :: fs, gs, path =>
      match gs with
      | [] => []
      | g :: gs' =>
          let rest := fccFields ord fs gs' path
          -- 如果字段不可比较，跳过 (helper.go 68-70)
          if !(e && g.exported) then rest
          else
            let fp := joinPath path (fieldPathSeg n y j)
            let head :=
              if isComposite v then fccO ord v g.fval fp
              else if !(deepEqual v g.fval) then [⟨fp, some v, some g.fval⟩] else []
            head ++ rest
termination_by structural a => a

def fccEntryChunks (ord : List String → List String) :
    List (String × GoVal) → List (String × GoVal) → String → List (String × List ConfigChangedItem)
  | [], _, _ => []
  | (k, v) :: es, fs, path =>
      let fp := joinPath path k
      let chunk :=
        match lookupEntry fs k with
        | none => [⟨fp, some v, none⟩]
        | some w =>
            if isComposite v then fccO ord v w fp
            else if !(deepEqual v w) then [⟨fp, some v, some w⟩] else []
      (k, chunk) :: fccEntryChunks ord es fs path
termination_by structural a => a

def fccElems (ord : List String → List String) :
    List GoVal → List GoVal → String → Nat → List ConfigChangedItem
  | [], _, _, _ => []
  | x :: xs, ys, path, i =>
      match ys with
      | [] => []
      | y :: ys' =>
          let head :=
            if isComposite x then fccO ord x y (indexPath path i)
            else if !(deepEqual x y) then [⟨indexPath path i, some x, some y⟩] else []
          head ++ fccElems ord xs ys' path (i + 1)
termination_by structural a => a
end

/-- `findConfigChanges` as the engine calls it: the order-abstract diff at
one fixed iteration order. -/
def findConfigChanges (a b : GoVal) (path : String) : List ConfigChangedItem :=
  fccO id a b path

/-- The top-level nil/invalid handling (`helper.go` 25-43): a `nil`
interface value on either side short-circuits to a whole-value
addition/removal item. -/
def findConfigChangesTop (a b : Option GoVal) (path : String) : List ConfigChangedItem :=
  match a, b with
  | none, none => []
  | none, some b' => [⟨path, none, some b'⟩]
  | some a', none => [⟨path, some a', none⟩]
  | some a', some b' => findConfigChanges a' b' path

/-!
JSON model for `cloneConfig` (`vconfig.go` 114-122): `cloneConfig`
marshals the source with `encoding/json`, returns the zero value of `T`
when marshalling fails, and otherwise unmarshals the bytes into a zero
`T`, ignoring the unmarshal error.
-/

/-- JSON document values. -/
inductive Json where
  | jNull
  | jBool (b : Bool)
  | jNum (n : Int)
  | jStr (s : String)
  | jArr (xs : List Json)
  | jObj (kvs : List (String × Json))
deriving Repr

/-- Object key `encoding/json` uses for a struct field: the json tag's
first comma-separated part when nonempty, else the Go field name.
(`omitempty` and other tag options are not modelled.) -/
def jsonKey (f : GoField) : String :=
  if firstCommaPart f.jsonTag ≠ "" then firstCommaPart f.jsonTag else f.fname

/-- Whether `encoding/json` serializes a struct field at all: unexported
fields and fields tagged exactly `json:"-"` are dropped. -/
def jsonSerialized (f : GoField) : Bool :=
  f.exported && f.jsonTag ≠ "-"

/-!
`marshalVal` models `json.Marshal`: NaN floats are unsupported values and
fail the whole marshal; unexported and `json:"-"` struct fields are
dropped; everything else maps structurally.
-/
mutual
def marshalVal : GoVal → Option Json
  | vInt n => some (.jNum n)
  | vBool b => some (.jBool b)
  | vStr s => some (.jStr s)
  | vFloat nan n => if nan then none else some (.jNum n)
  | vStruct _ fs => (marshalFields fs).map .jObj
  | vMap es => (marshalEntries es).map .jObj
  | vSlice xs => (marshalList xs).map .jArr
termination_by structural a => a

def marshalFields : List GoField → Option (List (String × Json))
  | [] => some []
  | f :: fs =>
      match f with
      | ⟨n, _, j, e, v⟩ =>
          if !(e && j ≠ "-") then marshalFields fs
          else
            match marshalVal v, marshalFields fs with
            | some jv, some rest =>
                some ((if firstCommaPart j ≠ "" then firstCommaPart j else n, jv) :: rest)
            | _, _ => none
termination_by structural a => a

def marshalEntries : List (String × GoVal) → Option (List (String × Json))
  | [] => some []
  | (k, v) :: es =>
      match marshalVal v, marshalEntries es with
      | some jv, some rest => some ((k, jv) :: rest)
      | _, _ => none
termination_by structural a => a

def marshalList : List GoVal → Option (List Json)
  | [] => some []
  | x :: xs =>
      match marshalVal x, marshalList xs with
      | some jx, some rest => some (jx :: rest)
      | _, _ => none
termination_by structural a => a
end

/-!
`zeroOf` is the zero value of a value's type (`var dst T`): zero scalars,
struct with zero fields, empty (nil) map and slice.
-/
mutual
def zeroOf : GoVal → GoVal
  | vInt _ => vInt 0
  | vBool _ => vBool false
  | vStr _ => vStr ""
  | vFloat _ _ => vFloat false 0
  | vStruct n fs => vStruct n (zeroOfFields fs)
  | vMap _ => vMap []
  | vSlice _ => vSlice []
termination_by structural a => a

def zeroOfFields : List GoField → List GoField
  | [] => []
  | ⟨n, y, j, e, v⟩ :: fs => ⟨n, y, j, e, zeroOf v⟩ :: zeroOfFields fs
termination_by structural a => a
end

/-!
`unmarshalShaped shape j` models `json.Unmarshal(data, &dst)` where `dst`
is the zero value of the type of `shape`: struct fields take their value
from the object when serialized and present, and stay zero otherwise;
slices are decoded element by element; map entries are decoded from the
object entry of the same key; scalars take the JSON payload.  A
shape/JSON kind mismatch (or an object key absent from the shape map)
leaves the zero value — such cases cannot occur in the only use, on
`json.Marshal` output of the same type `T`.
-/
mutual
def unmarshalShaped : GoVal → Json → GoVal
  | vInt _, j => match j with | .jNum n => vInt n | _ => vInt 0
  | vBool _, j => match j with | .jBool b => vBool b | _ => vBool false
  | vStr _, j => match j with | .jStr s => vStr s | _ => vStr ""
  | vFloat _ _, j => match j with | .jNum n => vFloat false n | _ => vFloat false 0
  | vStruct n fs, j =>
      match j with
      | .jObj kvs => vStruct n (unmarshalFields fs kvs)
      | _ => vStruct n (zeroOfFields fs)
  | vMap es, j =>
      match j with
      | .jObj kvs => vMap (unmarshalEntries es kvs)
      | _ => vMap []
  | vSlice xs, j =>
      match j with
      | .jArr js => vSlice (unmarshalElems xs js)
      | _ => vSlice []
termination_by structural a => a

def unmarshalFields : List GoField → List (String × Json) → List GoField
  | [], _ => []
  | ⟨n, y, jt, e, v⟩ :: fs, kvs =>
      let f' : GoField :=
        if !(e && jt ≠ "-") then ⟨n, y, jt, e, zeroOf v⟩
        else
          match (kvs.find? (fun kv => kv.1 == (if firstCommaPart jt ≠ "" then firstCommaPart jt else n))).map (fun kv => kv.2) with
          | some j => ⟨n, y, jt, e, unmarshalShaped v j⟩
          | none => ⟨n, y, jt, e, zeroOf v⟩
      f' :: unmarshalFields fs kvs
termination_by structural a => a

def unmarshalElems : List GoVal → List Json → List GoVal
  | [], _ => []
  | _ :: _, [] => []
  | x :: xs, j :: js => unmarshalShaped x j :: unmarshalElems xs js
termination_by structural a => a

def unmarshalEntries : List (String × GoVal) → List (String × Json) → List (String × GoVal)
  | [], _ => []
  | (k, v) :: es, kvs =>
      match (kvs.find? (fun kv => kv.1 == k)).map (fun kv => kv.2) with
      | some j => (k, unmarshalShaped v j) :: unmarshalEntries es kvs
      | none => unmarshalEntries es kvs
termination_by structural a => a
end

/-- `cloneConfig` (`vconfig.go` 114-122): `var dst T; data, err :=
json.Marshal(src); if err != nil { return dst };
json.Unmarshal(data, &dst); return dst`.  No error and no panic ever
escapes: a failed marshal silently yields the zero value. -/
def cloneConfig (src : GoVal) : GoVal :=
  match marshalVal src with
  | none => zeroOf src
  | some j => unmarshalShaped src j

/-!
Engine model (`Config[T]` of `vconfig.go`).  External effects are passed
explicitly: file existence and the decoded result of the
read-parse-unmarshal pipeline enter `reload` as inputs, wall-clock time
enters as an integer `now`, and the success of a file write or KV put
enters persistence as a boolean.  Observers are identified by numbers in
registration order; each function returns, besides the new state, the
list of observer invocations it performs (observer id paired with the
`changedItems` argument it receives).
-/

/-- Outcome of an engine call in Go: normal return, error return, or a
runtime panic. -/
inductive GoResult where
  | ok
  | goErr (msg : String)
  | goPanic (msg : String)
deriving Repr, DecidableEq

/-- The mutable state of a `Config[T]` engine.  `viperAlive` models
`c.v != nil`, `hasConfigFile` models `c.configFile != ""`, `etcdAlive`
models `c.etcdClient != nil`. -/
structure EngineState where
  data : GoVal
  oldData : GoVal
  viperAlive : Bool
  hasConfigFile : Bool
  etcdAlive : Bool
  callbacks : List Nat
  lastModTime : Int
  debounceTime : Int
  closed : Bool
deriving Repr

/-- One observer invocation: observer id and the change batch it receives. -/
abbrev DispatchLog := List (Nat × List ConfigChangedItem)

/-- `Config.OnChange` (`vconfig.go` 78-82): append-only registration. -/
def OnChange (c : EngineState) (cb : Nat) : EngineState :=
  { c with callbacks := c.callbacks ++ [cb] }

/-- `Config.GetData` (`vconfig.go` 468-470). -/
def GetData (c : EngineState) : GoVal :=
  c.data

/-- `Config.triggerCallbacks` (`vconfig.go` 85-111): return if closed;
return if `now` is within the debounce window of `lastModTime`; else set
`lastModTime := now`, compute `findConfigChanges(oldData, data, "")`, and
invoke every registered callback with that batch, in order. -/
def triggerCallbacks (c : EngineState) (now : Int) : EngineState × DispatchLog :=
  if c.closed then (c, [])
  else if now - c.lastModTime < c.debounceTime then (c, [])
  else
    let c' := { c with lastModTime := now }
    let changedItems := findConfigChanges c.oldData c.data ""
    (c', c'.callbacks.map (fun cb => (cb, changedItems)))

/-- `Config.reload` (`vconfig.go` 125-184): error if closed; error if the
file does not exist; save `oldData := cloneConfig(data)`; then the
read-parse-env-unmarshal pipeline either fails (`decoded = none`, an
error returns with `oldData` already overwritten) or replaces `data`. -/
def reload (c : EngineState) (fileExists : Bool) (decoded : Option GoVal) :
    EngineState × Bool :=
  if c.closed then (c, false)
  else if !fileExists then (c, false)
  else
    let c' := { c with oldData := cloneConfig c.data }
    match decoded with
    | none => (c', false)
    | some nv => ({ c' with data := nv }, true)

/-- The `OnConfigChange` handler installed by `Config.watchConfig`
(`vconfig.go` 187-209): return if closed; only `fsnotify.Write` events
are handled; `reload` runs first and, if it succeeds, `triggerCallbacks`
runs — the debounce check happens only inside `triggerCallbacks`, after
the reload already replaced the snapshot. -/
def watchEvent (c : EngineState) (isWrite fileExists : Bool) (decoded : Option GoVal)
    (now : Int) : EngineState × DispatchLog :=
  if c.closed then (c, [])
  else if !isWrite then (c, [])
  else
    let r := reload c fileExists decoded
    if !r.2 then (r.1, [])
    else triggerCallbacks r.1 now

/-- `Config.bindStruct` (`vconfig.go` 421-445): `json.Marshal` the value
(error return on failure), read it into a fresh temporary viper, then
copy every setting into `c.v` via `c.v.Set` — which dereferences a nil
pointer and panics when `c.v` is nil (as it is after `Close`). -/
def bindStruct (c : EngineState) : GoResult :=
  match marshalVal c.data with
  | none => .goErr "serialize failed"
  | some _ =>
      if !c.viperAlive then .goPanic "nil pointer dereference"
      else .ok

/-- `Config.SaveConfig` (`vconfig.go` 448-460): `bindStruct`, then
`c.v.WriteConfigAs(c.configFile)`; `writeOk` is the success of that file
write. -/
def SaveConfig (c : EngineState) (writeOk : Bool) : GoResult :=
  match bindStruct c with
  | .ok => if writeOk then .ok else .goErr "write config failed"
  | r => r

/-- `Config.Update` (`vconfig.go` 473-488): save
`oldData := cloneConfig(data)`, set `data := v`, then persist — to the
file via `SaveConfig` when `configFile` is set, else to ETCD when the
client is live (`putOk` is the success of the write/put), else an error.
The body contains no callback invocation and no write to `lastModTime`;
the returned dispatch log is therefore empty. -/
def Update (c : EngineState) (v : GoVal) (putOk : Bool) :
    EngineState × GoResult × DispatchLog :=
  let c' := { c with oldData := cloneConfig c.data, data := v }
  if c'.hasConfigFile then (c', SaveConfig c' putOk, [])
  else if c'.etcdAlive then (c', if putOk then .ok else .goErr "etcd put failed", [])
  else (c', .goErr "no config source", [])

/-- `Config.Close` (`vconfig.go` 491-512): set the closed flag, clear the
callback list, close and nil the ETCD client, nil out `c.v`, and zero
both snapshots (`*new(T)`). -/
def Close (c : EngineState) : EngineState :=
  { c with
      closed := true
      callbacks := []
      etcdAlive := false
      viperAlive := false
      data := zeroOf c.data
      oldData := zeroOf c.oldData }

/-!
Concrete values used by witnesses and counterexamples: the spec's
scenario type `{App: {Name: string, Port: int}}` with yaml tags, a mixed
struct exercising map, slice and float fields, a live file-bound engine
state, a two-key map pair, and structs with an unexported, a `json:"-"`
and a NaN field.
-/

def exApp (port : Int) : GoVal :=
  vStruct "AppConfig"
    [⟨"App", "app", "", true,
      vStruct "App" [⟨"Name", "name", "", true, vStr "x"⟩, ⟨"Port", "port", "", true, vInt port⟩]⟩]

def exMix : GoVal :=
  vStruct "Mix"
    [⟨"M", "m", "", true, vMap [("k", vInt 1)]⟩,
     ⟨"S", "s", "", true, vSlice [vStr "a", vBool true]⟩,
     ⟨"F", "f", "", true, vFloat false 2⟩]

/-- A live file-bound engine with one registered observer, equal
snapshots, debounce 500 and last-dispatch timestamp 0. -/
def exState : EngineState :=
  { data := exApp 8080
    oldData := exApp 8080
    viperAlive := true
    hasConfigFile := true
    etcdAlive := false
    callbacks := [0]
    lastModTime := 0
    debounceTime := 500
    closed := false }

def exM1 : GoVal := vMap [("a", vInt 1), ("b", vInt 2)]

def exM2 : GoVal := vMap [("a", vInt 10), ("b", vInt 20)]

def exUnexp : GoVal := vStruct "U" [⟨"a", "", "", false, vInt 5⟩]

def exDash : GoVal := vStruct "D" [⟨"A", "", "-", true, vInt 5⟩]

def exNaN : GoVal := vStruct "N" [⟨"F", "", "", true, vFloat true 0⟩]

/-!
Basic lemmas about `deepEqual` and the diff.
-/

theorem deepEqualFields_sig : ∀ {fs gs : List GoField},
    deepEqualFields fs gs = true → fieldSig fs = fieldSig gs := by
  intro fs
  induction fs with
  | nil =>
    intro gs h
    cases gs with
    | nil => rfl
    | cons g gs' => simp [deepEqualFields] at h
  | cons f fs ih =>
    intro gs h
    obtain ⟨n, y, j, e, v⟩ := f
    cases gs with
    | nil => simp [deepEqualFields] at h
    | cons g gs' =>
      obtain ⟨m, z, k, d, w⟩ := g
      simp only [deepEqualFields, Bool.and_eq_true, beq_iff_eq] at h
      obtain ⟨⟨⟨⟨⟨hn, hy⟩, hj⟩, he⟩, _⟩, hrest⟩ := h
      simp [fieldSig, hn, hy, hj, he] at ih ⊢
      exact ih hrest

theorem deepEqual_tyOf : ∀ {a b : GoVal}, deepEqual a b = true → tyOf a = tyOf b := by
  intro a b h
  cases a <;> cases b <;> simp_all [deepEqual, tyOf]
  case vStruct.vStruct =>
    exact deepEqualFields_sig h.2

theorem fccO_nil_of_deepEqual (ord : List String → List String) :
    ∀ (a b : GoVal) (p : String), deepEqual a b = true → fccO ord a b p = [] := by
  intro a b p h
  have hty := deepEqual_tyOf h
  cases a <;> cases b <;> simp_all [fccO, deepEqual]

theorem deepEqualList_length : ∀ {xs ys : List GoVal},
    deepEqualList xs ys = true → xs.length = ys.length := by
  intro xs
  induction xs with
  | nil => intro ys h; cases ys with
    | nil => rfl
    | cons y ys' => simp [deepEqualList] at h
  | cons x xs ih => intro ys h; cases ys with
    | nil => simp [deepEqualList] at h
    | cons y ys' =>
      simp only [deepEqualList, Bool.and_eq_true] at h
      simp [ih h.2]

theorem deepEqualFields_middle_false (pre post post' : List GoField) (n y j : String)
    (e : Bool) (v w : GoVal) (hd : deepEqual v w = false) :
    deepEqualFields (pre ++ ⟨n, y, j, e, v⟩ :: post) (pre ++ ⟨n, y, j, e, w⟩ :: post') = false := by
  induction pre with
  | nil => simp [deepEqualFields, hd]
  | cons g pre ih =>
    obtain ⟨gn, gy, gj, ge, gv⟩ := g
    simp [deepEqualFields, ih]

theorem fccFields_append_self (ord : List String → List String) (p : String) :
    ∀ (pre l₁ l₂ : List GoField),
    pre.all (fun g => deepEqual g.fval g.fval) = true →
    fccFields ord (pre ++ l₁) (pre ++ l₂) p = fccFields ord l₁ l₂ p := by
  intro pre
  induction pre with
  | nil => intro l₁ l₂ _; rfl
  | cons g pre ih =>
    intro l₁ l₂ h
    obtain ⟨n, y, j, e, v⟩ := g
    simp only [List.all_cons, Bool.and_eq_true] at h
    simp only [List.cons_append, fccFields, List.append_eq]
    rw [ih l₁ l₂ h.2]
    cases e with
    | false => simp
    | true =>
      have hv : deepEqual v v = true := h.1
      cases hcomp : isComposite v with
      | true => simp [hcomp, fccO_nil_of_deepEqual ord v v _ hv]
      | false => simp [hcomp, hv]

theorem fccFields_self (ord : List String → List String) (p : String) (l : List GoField)
    (h : l.all (fun g => deepEqual g.fval g.fval) = true) :
    fccFields ord l l p = [] := by
  have := fccFields_append_self ord p l [] [] h
  simpa using this

/-- The struct branch on two structs that differ exactly in one exported
scalar field emits exactly the one item for that field, addressed by the
tag-derived segment appended to the base path. -/
theorem fccO_struct_single_scalar (ord : List String → List String)
    (tyN p n y j : String) (pre post : List GoField) (ov nv : GoVal)
    (hpre : pre.all (fun g => deepEqual g.fval g.fval) = true)
    (hpost : post.all (fun g => deepEqual g.fval g.fval) = true)
    (hsc : isComposite ov = false)
    (hne : deepEqual ov nv = false) :
    fccO ord (vStruct tyN (pre ++ ⟨n, y, j, true, ov⟩ :: post))
             (vStruct tyN (pre ++ ⟨n, y, j, true, nv⟩ :: post)) p
      = [⟨joinPath p (fieldPathSeg n y j), some ov, some nv⟩] := by
  have hty : tyOf (vStruct tyN (pre ++ ⟨n, y, j, true, ov⟩ :: post))
      = tyOf (vStruct tyN (pre ++ ⟨n, y, j, true, nv⟩ :: post)) := by
    simp [tyOf, fieldSig]
  have hde : deepEqual (vStruct tyN (pre ++ ⟨n, y, j, true, ov⟩ :: post))
      (vStruct tyN (pre ++ ⟨n, y, j, true, nv⟩ :: post)) = false := by
    simp [deepEqual, deepEqualFields_middle_false pre post post n y j true ov nv hne]
  simp only [fccO, hty, ne_eq, not_true_eq_false, if_false, hde, Bool.false_eq_true,
    reduceIte]
  rw [fccFields_append_self ord p pre _ _ hpre]
  simp [fccFields, hsc, hne, fccFields_self ord p post hpost]

/-- The slice/array branch on length-differing collections: one whole-value
item, regardless of the map iteration order parameter. -/
theorem fccO_slice_length_ne (ord : List String → List String)
    (xs ys : List GoVal) (p : String) (h : xs.length ≠ ys.length) :
    fccO ord (vSlice xs) (vSlice ys) p = [⟨p, some (vSlice xs), some (vSlice ys)⟩] := by
  have hde : deepEqual (vSlice xs) (vSlice ys) = false := by
    cases hc : deepEqual (vSlice xs) (vSlice ys) with
    | false => rfl
    | true => exact absurd (deepEqualList_length (by simpa [deepEqual] using hc)) h
  simp [fccO, tyOf, hde, h]

/-- Branch equation of `fccO`: type mismatch emits one whole-value item. -/
theorem fccO_ty_ne (ord : List String → List String) (a b : GoVal) (p : String)
    (h : tyOf a ≠ tyOf b) : fccO ord a b p = [⟨p, some a, some b⟩] := by
  rw [fccO.eq_def]
  simp [h]

/-- Branch equation of `fccO`: unequal structs of one type diff field by field. -/
theorem fccO_struct_eq (ord : List String → List String) (n : String) (fs : List GoField)
    (m : String) (gs : List GoField) (p : String)
    (hty : ¬ tyOf (vStruct n fs) ≠ tyOf (vStruct m gs))
    (hde : deepEqual (vStruct n fs) (vStruct m gs) = false) :
    fccO ord (vStruct n fs) (vStruct m gs) p = fccFields ord fs gs p := by
  have hty' : tyOf (vStruct n fs) = tyOf (vStruct m gs) := not_ne_iff.mp hty
  rw [fccO.eq_def]
  simp [hty', hde]

/-- Branch equation of `fccO`: unequal maps diff key by key over the union. -/
theorem fccO_map_eq (ord : List String → List String) (es fs : List (String × GoVal))
    (p : String) (hde : deepEqual (vMap es) (vMap fs) = false) :
    fccO ord (vMap es) (vMap fs) p =
      (ord (dedupKeys (es.map Prod.fst ++ fs.map Prod.fst))).flatMap
        (fun k => ((((fccEntryChunks ord es fs p ++ additionChunks (es.map Prod.fst) fs p).find?
            (fun c => c.1 == k)).map (fun c => c.2)).getD [])) := by
  rw [fccO.eq_def]
  simp only [tyOf, ne_eq, not_true_eq_false, if_false, hde, Bool.false_eq_true, reduceIte]

/-- Branch equation of `fccO`: unequal same-length slices diff element by
element, with a whole-value fallback when no element-level item appears. -/
theorem fccO_slice_eq (ord : List String → List String) (xs ys : List GoVal) (p : String)
    (hde : deepEqual (vSlice xs) (vSlice ys) = false) (hlen : xs.length = ys.length) :
    fccO ord (vSlice xs) (vSlice ys) p =
      if (fccElems ord xs ys p 0).isEmpty = true then
        [⟨p, some (vSlice xs), some (vSlice ys)⟩]
      else fccElems ord xs ys p 0 := by
  rw [fccO.eq_def]
  simp only [tyOf, ne_eq, not_true_eq_false, if_false, hde, Bool.false_eq_true, reduceIte,
    hlen, Bool.not_false, Bool.and_true]

/-- A `Forall₂` of equal keys and permuted chunks transports through the
first-match key lookup of the map branch. -/
theorem find_chunks_perm (k : String) :
    ∀ {l₁ l₂ : List (String × List ConfigChangedItem)},
    List.Forall₂ (fun c₁ c₂ => c₁.1 = c₂.1 ∧ c₁.2.Perm c₂.2) l₁ l₂ →
    (((l₁.find? (fun c => c.1 == k)).map (fun c => c.2)).getD []).Perm
      (((l₂.find? (fun c => c.1 == k)).map (fun c => c.2)).getD []) := by
  intro l₁ l₂ h
  induction h with
  | nil => exact .refl _
  | @cons c₁ c₂ l₁' l₂' hR hrest ih =>
    obtain ⟨hk, hp⟩ := hR
    by_cases hk1 : (c₁.1 == k) = true
    · have hk2 : (c₂.1 == k) = true := by rw [← hk]; exact hk1
      simp [List.find?, hk1, hk2, hp]
    · have hk2 : ¬ (c₂.1 == k) = true := by rw [← hk]; exact hk1
      simp only [List.find?, hk1, hk2]
      simpa using ih

theorem fccO_perm_of_ord (ord₁ ord₂ : List String → List String)
    (h₁ : ∀ ks : List String, (ord₁ ks).Perm ks)
    (h₂ : ∀ ks : List String, (ord₂ ks).Perm ks) :
    ∀ (a b : GoVal) (p : String), (fccO ord₁ a b p).Perm (fccO ord₂ a b p) := by
  refine fccO.induct ord₁
    (fun a b p => (fccO ord₁ a b p).Perm (fccO ord₂ a b p))
    (fun xs ys p i => (fccElems ord₁ xs ys p i).Perm (fccElems ord₂ xs ys p i))
    (fun es fs p => List.Forall₂ (fun c₁ c₂ => c₁.1 = c₂.1 ∧ c₁.2.Perm c₂.2)
        (fccEntryChunks ord₁ es fs p) (fccEntryChunks ord₂ es fs p))
    (fun fs gs p => (fccFields ord₁ fs gs p).Perm (fccFields ord₂ fs gs p))
    ?_ ?_ ?_ ?_ ?_ ?_ ?_ ?_ ?_ ?_ ?_ ?_ ?_ ?_ ?_ ?_ ?_ ?_ ?_ ?_
  · -- type mismatch
    intro a b p hty
    rw [fccO_ty_ne ord₁ a b p hty, fccO_ty_ne ord₂ a b p hty]
  · -- struct, deeply equal
    intro p n fs m gs hde _
    rw [fccO_nil_of_deepEqual ord₁ _ _ _ hde, fccO_nil_of_deepEqual ord₂ _ _ _ hde]
  · -- struct, recurse
    intro p n fs m gs hde hty ih
    have hde' : deepEqual (vStruct n fs) (vStruct m gs) = false := by simpa using hde
    rw [fccO_struct_eq ord₁ n fs m gs p hty hde', fccO_struct_eq ord₂ n fs m gs p hty hde']
    exact ih
  · -- map, deeply equal
    intro p es fs hde _
    rw [fccO_nil_of_deepEqual ord₁ _ _ _ hde, fccO_nil_of_deepEqual ord₂ _ _ _ hde]
  · -- map, recurse
    intro p es fs hde _ ih
    have hde' : deepEqual (vMap es) (vMap fs) = false := by simpa using hde
    rw [fccO_map_eq ord₁ es fs p hde', fccO_map_eq ord₂ es fs p hde']
    have htot : List.Forall₂ (fun c₁ c₂ => c₁.1 = c₂.1 ∧ c₁.2.Perm c₂.2)
        (fccEntryChunks ord₁ es fs p ++ additionChunks (es.map Prod.fst) fs p)
        (fccEntryChunks ord₂ es fs p ++ additionChunks (es.map Prod.fst) fs p) :=
      List.rel_append ih (List.forall₂_same.mpr (fun c _ => ⟨rfl, .refl _⟩))
    refine ((h₁ _).flatMap_right _).trans (List.Perm.trans ?_ ((h₂ _).symm.flatMap_right _))
    exact List.Perm.flatMap_left _ (fun k _ => find_chunks_perm k htot)
  · -- slice, deeply equal
    intro p xs ys hde _
    rw [fccO_nil_of_deepEqual ord₁ _ _ _ hde, fccO_nil_of_deepEqual ord₂ _ _ _ hde]
  · -- slice, length change
    intro p xs ys _ hlen _
    rw [fccO_slice_length_ne ord₁ xs ys p hlen, fccO_slice_length_ne ord₂ xs ys p hlen]
  · -- slice, elementwise comparison found nothing: whole-value fallback
    intro p xs ys hde hlen cs hcs _ ih
    have hde' : deepEqual (vSlice xs) (vSlice ys) = false := by simpa using hde
    have hlen' : xs.length = ys.length := not_ne_iff.mp hlen
    have hcs0 : ((fccElems ord₁ xs ys p 0).isEmpty
        && !deepEqual (vSlice xs) (vSlice ys)) = true := hcs
    simp only [hde', Bool.not_false, Bool.and_true] at hcs0
    have hcs1 : fccElems ord₁ xs ys p 0 = [] := by
      simpa [List.isEmpty_iff] using hcs0
    have hcs2 : fccElems ord₂ xs ys p 0 = [] := by
      have h' := ih
      rw [hcs1] at h'
      exact h'.symm.eq_nil
    rw [fccO_slice_eq ord₁ xs ys p hde' hlen', fccO_slice_eq ord₂ xs ys p hde' hlen']
    simp [hcs1, hcs2]
  · -- slice, elementwise changes found
    intro p xs ys hde hlen cs hcs _ ih
    have hde' : deepEqual (vSlice xs) (vSlice ys) = false := by simpa using hde
    have hlen' : xs.length = ys.length := not_ne_iff.mp hlen
    have hcs0 : ¬ ((fccElems ord₁ xs ys p 0).isEmpty
        && !deepEqual (vSlice xs) (vSlice ys)) = true := hcs
    simp only [hde', Bool.not_false, Bool.and_true] at hcs0
    have hcs1 : (fccElems ord₁ xs ys p 0).isEmpty = false := by
      simpa using hcs0
    have hcs2 : (fccElems ord₂ xs ys p 0).isEmpty = false := by
      rcases hq : fccElems ord₂ xs ys p 0 with _ | ⟨c, cs'⟩
      · exfalso
        rw [hq] at ih
        rw [ih.eq_nil] at hcs1
        simp at hcs1
      · rfl
    rw [fccO_slice_eq ord₁ xs ys p hde' hlen', fccO_slice_eq ord₂ xs ys p hde' hlen']
    simp only [hcs1, hcs2, Bool.false_eq_true, if_false]
    exact ih
  · -- scalars, unequal: both sides emit the same single item
    intro p a' b' hns hnm hnsl hde hty
    cases a' <;> cases b' <;>
      first
      | exact (hns _ _ _ _ rfl rfl).elim
      | exact (hnm _ _ rfl rfl).elim
      | exact (hnsl _ _ rfl rfl).elim
      | exact absurd (by decide) hty
      | (simp only [fccO.eq_def]
         simp [tyOf, hde])
  · -- scalars, equal: both sides empty
    intro p a' b' hns hnm hnsl hde hty
    simp only [Bool.not_eq_true', Bool.not_eq_false] at hde
    cases a' <;> cases b' <;>
      first
      | exact (hns _ _ _ _ rfl rfl).elim
      | exact (hnm _ _ rfl rfl).elim
      | exact (hnsl _ _ rfl rfl).elim
      | exact absurd (by decide) hty
      | (simp only [fccO.eq_def]
         simp [tyOf, hde])
  · -- fields: nil
    intro gs p
    simp [fccFields]
  · -- fields: cons against exhausted counterpart
    intro n y j e v fs p
    simp [fccFields]
  · -- fields: skipped field
    intro n y j e v fs p g gs' hskip ih
    simp only [fccFields, hskip, if_true]
    exact ih
  · -- fields: compared field
    intro n y j e v fs p g gs' hskip fp ih ihhead
    simp only [fccFields]
    rw [if_neg hskip, if_neg hskip]
    by_cases hcv : isComposite v = true
    · simp only [hcv, if_true]
      exact ihhead.append ih
    · simp only [hcv, Bool.false_eq_true, if_false]
      exact List.Perm.append (.refl _) ih
  · -- entry chunks: nil
    intro fs p
    simp only [fccEntryChunks]
    exact List.Forall₂.nil
  · -- entry chunks: cons
    intro k v es fs p fp ihhead ih
    simp only [fccEntryChunks]
    refine List.Forall₂.cons ⟨rfl, ?_⟩ ih
    cases hl : lookupEntry fs k with
    | none => simp [hl]
    | some w =>
      by_cases hcv : isComposite v = true
      · simp only [hl, hcv, if_true]
        exact ihhead w
      · simp [hl, hcv]
  · -- elems: nil
    intro xs p i
    simp [fccElems]
  · -- elems: cons against exhausted counterpart
    intro x xs p i
    simp [fccElems]
  · -- elems: cons cons
    intro x xs p i y ys' ihhead ih
    simp only [fccElems]
    by_cases hcv : isComposite x = true
    · simp only [hcv, if_true]
      exact ihhead.append ih
    · simp only [hcv, Bool.false_eq_true, if_false]
      exact List.Perm.append (.refl _) ih

/-!
Claim theorems.
-/

/-- C4: for every pair of deeply-equal typed values — of struct, map,
slice/array or scalar shape — the structural diff
`findConfigChanges(old, new, basePath)` returns the empty change list. -/
theorem structDiff_empty_on_deepEqual (a b : GoVal) (p : String)
    (h : deepEqual a b = true) : findConfigChanges a b p = [] :=
  fccO_nil_of_deepEqual id a b p h

theorem structDiff_empty_on_deepEqual_witness :
    deepEqual exMix exMix = true ∧ findConfigChanges exMix exMix "base" = [] :=
  ⟨rfl, structDiff_empty_on_deepEqual exMix exMix "base" rfl⟩

/-- C5: for two struct values that differ only in one exported scalar
leaf field, the diff returns exactly one `ChangeItem` whose `Path` is the
tag-derived segment of that field (yaml/json tag first part, else the
field identifier) appended to the base path with a dot, and whose
old/new values are the leaf's old and new values.  The second conjunct
instantiates the spec's two-level scenario, showing the dotted
multi-level path `app.port`. -/
theorem structDiff_single_scalar_leaf :
    (∀ (tyN p n y j : String) (pre post : List GoField) (ov nv : GoVal),
      pre.all (fun g => deepEqual g.fval g.fval) = true →
      post.all (fun g => deepEqual g.fval g.fval) = true →
      isComposite ov = false →
      deepEqual ov nv = false →
      findConfigChanges (vStruct tyN (pre ++ ⟨n, y, j, true, ov⟩ :: post))
                        (vStruct tyN (pre ++ ⟨n, y, j, true, nv⟩ :: post)) p
        = [⟨joinPath p (fieldPathSeg n y j), some ov, some nv⟩]) ∧
    findConfigChanges (exApp 8080) (exApp 9000) ""
      = [⟨"app.port", some (vInt 8080), some (vInt 9000)⟩] := by
  constructor
  · intro tyN p n y j pre post ov nv hpre hpost hsc hne
    exact fccO_struct_single_scalar id tyN p n y j pre post ov nv hpre hpost hsc hne
  · rfl

theorem structDiff_single_scalar_leaf_witness :
    (([] : List GoField).all (fun g => deepEqual g.fval g.fval) = true ∧
     isComposite (vInt 1) = false ∧ deepEqual (vInt 1) (vInt 2) = false) ∧
    findConfigChanges (vStruct "S" [⟨"Port", "port", "", true, vInt 1⟩])
                      (vStruct "S" [⟨"Port", "port", "", true, vInt 2⟩]) ""
      = [⟨joinPath "" (fieldPathSeg "Port" "port" ""), some (vInt 1), some (vInt 2)⟩] :=
  ⟨⟨rfl, rfl, rfl⟩,
    structDiff_single_scalar_leaf.1 "S" "" "Port" "port" "" [] [] (vInt 1) (vInt 2)
      rfl rfl rfl rfl⟩

/-- C6: for ordered collections (slices/arrays) whose lengths differ, the
diff returns exactly one `ChangeItem` at the collection's own path,
carrying the whole old and whole new collections, and no element-level
items — for the engine's instantiation of the iteration order. -/
theorem sliceDiff_length_change_whole (xs ys : List GoVal) (p : String)
    (h : xs.length ≠ ys.length) :
    findConfigChanges (vSlice xs) (vSlice ys) p
      = [⟨p, some (vSlice xs), some (vSlice ys)⟩] :=
  fccO_slice_length_ne id xs ys p h

theorem sliceDiff_length_change_whole_witness :
    ([vInt 1] : List GoVal).length ≠ ([vInt 1, vInt 2] : List GoVal).length ∧
    findConfigChanges (vSlice [vInt 1]) (vSlice [vInt 1, vInt 2]) "xs"
      = [⟨"xs", some (vSlice [vInt 1]), some (vSlice [vInt 1, vInt 2])⟩] :=
  ⟨by decide, sliceDiff_length_change_whole [vInt 1] [vInt 1, vInt 2] "xs" (by decide)⟩

/-- C9: the path segment of a struct field uses the yaml tag's first
comma-separated part whenever the yaml tag is neither absent nor `"-"`;
the json tag's first part is consulted only when the yaml tag is absent
or `"-"`; and when both tags are absent or `"-"` the Go field identifier
is used — the field is still addressed, not omitted.  The last conjunct
shows the segment is what every emitted `ChangeItem` of that field
carries. -/
theorem tagPathSegSelection :
    (∀ n y j : String, y ≠ "" → y ≠ "-" → fieldPathSeg n y j = firstCommaPart y) ∧
    (∀ n y j : String, (y = "" ∨ y = "-") → j ≠ "" → j ≠ "-" →
      fieldPathSeg n y j = firstCommaPart j) ∧
    (∀ n y j : String, (y = "" ∨ y = "-") → (j = "" ∨ j = "-") → fieldPathSeg n y j = n) ∧
    (∀ (tyN p n y j : String) (ov nv : GoVal),
      isComposite ov = false → deepEqual ov nv = false →
      findConfigChanges (vStruct tyN [⟨n, y, j, true, ov⟩]) (vStruct tyN [⟨n, y, j, true, nv⟩]) p
        = [⟨joinPath p (fieldPathSeg n y j), some ov, some nv⟩]) := by
  refine ⟨?_, ?_, ?_, ?_⟩
  · intro n y j h1 h2
    simp [fieldPathSeg, h1, h2]
  · intro n y j hy h1 h2
    rcases hy with hy | hy <;> simp [fieldPathSeg, hy, h1, h2]
  · intro n y j hy hj
    rcases hy with hy | hy <;> rcases hj with hj | hj <;> simp [fieldPathSeg, hy, hj]
  · intro tyN p n y j ov nv hsc hne
    exact fccO_struct_single_scalar id tyN p n y j [] [] ov nv rfl rfl hsc hne

theorem tagPathSegSelection_witness :
    (("p,omitempty" : String) ≠ "" ∧ ("p,omitempty" : String) ≠ "-" ∧
      fieldPathSeg "Port" "p,omitempty" "q" = firstCommaPart "p,omitempty") ∧
    (fieldPathSeg "Port" "-" "q,omitempty" = firstCommaPart "q,omitempty") ∧
    (fieldPathSeg "Port" "-" "-" = "Port") ∧
    (deepEqual (vInt 1) (vInt 2) = false ∧
      findConfigChanges (vStruct "S" [⟨"X", "-", "-", true, vInt 1⟩])
                        (vStruct "S" [⟨"X", "-", "-", true, vInt 2⟩]) ""
        = [⟨joinPath "" (fieldPathSeg "X" "-" "-"), some (vInt 1), some (vInt 2)⟩]) :=
  ⟨⟨by decide, by decide,
      tagPathSegSelection.1 "Port" "p,omitempty" "q" (by decide) (by decide)⟩,
   tagPathSegSelection.2.1 "Port" "-" "q,omitempty" (Or.inr rfl) (by decide) (by decide),
   tagPathSegSelection.2.2.1 "Port" "-" "-" (Or.inr rfl) (Or.inr rfl),
   ⟨rfl, tagPathSegSelection.2.2.2 "S" "" "X" "-" "-" (vInt 1) (vInt 2) rfl rfl⟩⟩

/-- C1 counterexample: on a live file-bound engine with one registered
observer, `Update` performs no observer invocation before returning and
leaves the debounce timestamp unchanged, even though it succeeds — so
`Update` does not "invoke each registered observer exactly once
synchronously" and does not "advance the debounce timestamp". -/
theorem update_counterexample :
    exState.callbacks.length = 1 ∧
    (Update exState (exApp 9000) true).2.1 = .ok ∧
    (Update exState (exApp 9000) true).2.2 = [] ∧
    (Update exState (exApp 9000) true).1.lastModTime = exState.lastModTime :=
  ⟨rfl, rfl, rfl, rfl⟩

/-- C1 amended: `Update(newValue)` replaces the current snapshot with
`newValue`, stores the clone of the prior snapshot as `oldData`, and
persists to the active source (returning `ok` on a successful file-mode
write) — but it invokes no observer synchronously before returning and
leaves the debounce timestamp (and the observer list) unchanged;
dispatch can only happen later through the watch path. -/
theorem update_replaces_persists_no_dispatch (c : EngineState) (v : GoVal) (putOk : Bool) :
    (Update c v putOk).1.data = v ∧
    (Update c v putOk).1.oldData = cloneConfig c.data ∧
    (Update c v putOk).1.lastModTime = c.lastModTime ∧
    (Update c v putOk).1.callbacks = c.callbacks ∧
    (Update c v putOk).2.2 = ([] : DispatchLog) ∧
    (c.hasConfigFile = true → c.viperAlive = true → (∃ jj, marshalVal v = some jj) →
      putOk = true → (Update c v putOk).2.1 = .ok) := by
  refine ⟨?_, ?_, ?_, ?_, ?_, ?_⟩
  · simp only [Update]; split <;> try split
    all_goals rfl
  · simp only [Update]; split <;> try split
    all_goals rfl
  · simp only [Update]; split <;> try split
    all_goals rfl
  · simp only [Update]; split <;> try split
    all_goals rfl
  · simp only [Update]; split <;> try split
    all_goals rfl
  · intro hf hv hm hput
    obtain ⟨jj, hjj⟩ := hm
    simp [Update, hf, hput, SaveConfig, bindStruct, hjj, hv]

theorem update_replaces_persists_no_dispatch_witness :
    exState.hasConfigFile = true ∧ exState.viperAlive = true ∧
    marshalVal (exApp 9000) = some (Json.jObj [("App",
      Json.jObj [("Name", Json.jStr "x"), ("Port", Json.jNum 9000)])]) ∧
    (Update exState (exApp 9000) true).1.data = exApp 9000 ∧
    (Update exState (exApp 9000) true).2.1 = .ok :=
  ⟨rfl, rfl, rfl,
    (update_replaces_persists_no_dispatch exState (exApp 9000) true).1,
    (update_replaces_persists_no_dispatch exState (exApp 9000) true).2.2.2.2.2
      rfl rfl ⟨_, rfl⟩ rfl⟩

/-- C2 counterexample: two write signals 200ms apart on a 500ms window.
The first reloads and dispatches once; the second dispatches nothing —
but it still reloads: the snapshot after the second signal is the second
file's content, not the first's, refuting "triggers neither a reload of
the snapshot … snapshot state of the second signal untouched". -/
theorem debounce_counterexample :
    ((watchEvent exState true true (some (exApp 9000)) 1000).2).length = 1 ∧
    (watchEvent (watchEvent exState true true (some (exApp 9000)) 1000).1
        true true (some (exApp 9100)) 1200).2 = [] ∧
    (watchEvent exState true true (some (exApp 9000)) 1000).1.data = exApp 9000 ∧
    (watchEvent (watchEvent exState true true (some (exApp 9000)) 1000).1
        true true (some (exApp 9100)) 1200).1.data = exApp 9100 ∧
    deepEqual
      (watchEvent (watchEvent exState true true (some (exApp 9000)) 1000).1
        true true (some (exApp 9100)) 1200).1.data
      (watchEvent exState true true (some (exApp 9000)) 1000).1.data = false :=
  ⟨rfl, rfl, rfl, rfl, rfl⟩

/-- C2 amended: a write signal arriving within the debounce window of the
last accepted dispatch triggers no diff/dispatch (so two signals within
one window produce exactly one dispatch cycle), and leaves the debounce
timestamp unchanged — but the reload itself still runs: the snapshot is
replaced by the newly decoded value and `oldData` by the clone of the
prior snapshot. -/
theorem debounced_signal_reloads_without_dispatch (c : EngineState) (nv : GoVal) (now : Int)
    (hc : c.closed = false) (hw : now - c.lastModTime < c.debounceTime) :
    (watchEvent c true true (some nv) now).2 = [] ∧
    (watchEvent c true true (some nv) now).1.data = nv ∧
    (watchEvent c true true (some nv) now).1.oldData = cloneConfig c.data ∧
    (watchEvent c true true (some nv) now).1.lastModTime = c.lastModTime := by
  simp [watchEvent, reload, triggerCallbacks, hc, hw]

theorem debounced_signal_reloads_without_dispatch_witness :
    exState.closed = false ∧ ((200 : Int) - exState.lastModTime < exState.debounceTime) ∧
    (watchEvent exState true true (some (exApp 9000)) 200).2 = [] ∧
    (watchEvent exState true true (some (exApp 9000)) 200).1.data = exApp 9000 :=
  ⟨rfl, by decide,
    (debounced_signal_reloads_without_dispatch exState (exApp 9000) 200 rfl (by decide)).1,
    (debounced_signal_reloads_without_dispatch exState (exApp 9000) 200 rfl (by decide)).2.1⟩

/-- C3 counterexample: with deeply equal old and new snapshots and one
registered observer, the dispatch after a reload cycle still invokes the
observer — it receives the empty batch; the empty batch does not
suppress dispatch, refuting "no registered observer is invoked". -/
theorem emptyBatch_counterexample :
    deepEqual exState.oldData exState.data = true ∧
    (triggerCallbacks exState 1000).2 = [(0, [])] ∧
    ((triggerCallbacks exState 1000).2).length = 1 :=
  ⟨rfl, rfl, rfl⟩

/-- C3 amended: when the old and new snapshots are deeply equal, the
change batch of the cycle is empty — but every registered observer is
still invoked exactly once, receiving that empty batch (dispatch is not
suppressed). -/
theorem emptyBatch_dispatches_empty (c : EngineState) (now : Int)
    (hc : c.closed = false) (hdt : c.debounceTime ≤ now - c.lastModTime)
    (heq : deepEqual c.oldData c.data = true) :
    (triggerCallbacks c now).2 = c.callbacks.map (fun cb => (cb, [])) := by
  have hnil : findConfigChanges c.oldData c.data "" = [] :=
    fccO_nil_of_deepEqual id c.oldData c.data "" heq
  simp [triggerCallbacks, hc, not_lt.2 hdt, hnil]

theorem emptyBatch_dispatches_empty_witness :
    exState.closed = false ∧ exState.debounceTime ≤ (1000 : Int) - exState.lastModTime ∧
    deepEqual exState.oldData exState.data = true ∧
    (triggerCallbacks exState 1000).2 = exState.callbacks.map (fun cb => (cb, [])) :=
  ⟨rfl, by decide, rfl, emptyBatch_dispatches_empty exState 1000 rfl (by decide) rfl⟩

/-- C8: after `Close` nils out the viper instance, the file-mode
persistence path (`SaveConfig`, reached also from `Update`) dereferences
the nil pointer in `bindStruct`'s `c.v.Set` loop and panics instead of
returning a "closed" error or becoming a no-op. -/
theorem closed_engine_persist_panics :
    (Close exState).closed = true ∧
    SaveConfig (Close exState) true = .goPanic "nil pointer dereference" ∧
    (Update (Close exState) (exApp 9000) true).2.1 = .goPanic "nil pointer dereference" :=
  ⟨rfl, rfl, rfl⟩

/-- C10: `cloneConfig(src)` is exactly the JSON round trip of `src`: it
returns the zero value when marshalling fails (total function, no error,
no panic by construction) and the unmarshal of the marshalled bytes
otherwise.  Consequently a value with an unexported field, or a
`json:"-"` field, holding non-zero content clones to something that
differs from the live value (while `DeepEqual` considers the live value
self-equal), and a value containing a NaN float fails to marshal and
clones silently to the zero value. -/
theorem cloneConfig_json_roundtrip :
    (∀ v : GoVal, marshalVal v = none → cloneConfig v = zeroOf v) ∧
    (∀ (v : GoVal) (j : Json), marshalVal v = some j → cloneConfig v = unmarshalShaped v j) ∧
    (deepEqual exUnexp exUnexp = true ∧ deepEqual (cloneConfig exUnexp) exUnexp = false) ∧
    (deepEqual (cloneConfig exDash) exDash = false) ∧
    (marshalVal exNaN = none ∧ cloneConfig exNaN = zeroOf exNaN) := by
  refine ⟨?_, ?_, ⟨rfl, rfl⟩, rfl, rfl, rfl⟩
  · intro v h; simp [cloneConfig, h]
  · intro v j h; simp [cloneConfig, h]

theorem cloneConfig_json_roundtrip_witness :
    marshalVal exNaN = none ∧ cloneConfig exNaN = zeroOf exNaN ∧
    marshalVal exUnexp = some (Json.jObj []) ∧
    cloneConfig exUnexp = unmarshalShaped exUnexp (Json.jObj []) :=
  ⟨rfl, cloneConfig_json_roundtrip.1 exNaN rfl, rfl,
    cloneConfig_json_roundtrip.2.1 exUnexp (Json.jObj []) rfl⟩

/-- C7 counterexample: two legitimate iteration orders of the map branch's
key union (the canonical order and its reverse, both permutations of the
union) produce the same two `ChangeItem`s for a two-key map whose two
values both changed — but in different list orders, so the change list,
"including the same order", is not determined by the inputs alone. -/
theorem mapOrder_counterexample :
    (List.reverse ["a", "b"]).Perm ["a", "b"] ∧
    fccO id exM1 exM2 ""
      = [⟨"a", some (vInt 1), some (vInt 10)⟩, ⟨"b", some (vInt 2), some (vInt 20)⟩] ∧
    fccO List.reverse exM1 exM2 ""
      = [⟨"b", some (vInt 2), some (vInt 20)⟩, ⟨"a", some (vInt 1), some (vInt 10)⟩] ∧
    (fccO id exM1 exM2 "").map ConfigChangedItem.Path
      ≠ (fccO List.reverse exM1 exM2 "").map ConfigChangedItem.Path :=
  ⟨by decide, rfl, rfl, by decide⟩

/-- C7 amended: `findConfigChanges` is pure and deterministic up to the
iteration order of Go's key-union map: for any two iteration orders
(functions that permute the canonical key-union list), the change lists
of the two runs are permutations of each other — the multiset of
`ChangeItem`s is fully determined by the inputs; only the relative order
of items stemming from a map's keys follows the unspecified map
iteration order. -/
theorem structDiff_deterministic_up_to_mapOrder
    (ord₁ ord₂ : List String → List String)
    (h₁ : ∀ ks : List String, (ord₁ ks).Perm ks)
    (h₂ : ∀ ks : List String, (ord₂ ks).Perm ks)
    (a b : GoVal) (p : String) :
    (fccO ord₁ a b p).Perm (fccO ord₂ a b p) :=
  fccO_perm_of_ord ord₁ ord₂ h₁ h₂ a b p

theorem structDiff_deterministic_up_to_mapOrder_witness :
    ((id ["a", "b"] : List String).Perm ["a", "b"]) ∧
    ((List.reverse ["a", "b"]).Perm ["a", "b"]) ∧
    (fccO id exM1 exM2 "").Perm (fccO List.reverse exM1 exM2 "") :=
  ⟨by decide, by decide,
    structDiff_deterministic_up_to_mapOrder id List.reverse
      (fun ks => List.Perm.refl ks) (fun ks => List.reverse_perm ks) exM1 exM2 ""⟩

end Vconfig
